import Mathlib

/-!
ECDHE parameter serialization (`ztools/keys/ecdhe.go`).

A shallow embedding of the JSON codecs of `TLSCurveID`, `ECPoint` and
`ECDHParams`, and the properties of their encode/decode contract.

The Go methods delegate to `encoding/json`.  The embedding works on parsed
JSON documents (`Json`) instead of byte slices: `json.Marshal` builds a
document, `json.Unmarshal` consumes one.  The behaviour of `encoding/json`
that the methods rely on is embedded as it applies to the structs of the
source file: key lookup (exact name first, then case-insensitive), the
treatment of `null`, type errors that are saved while decoding goes on,
errors of a nested `Unmarshaler` (after which the decoder of older
toolchains stops and the decoder of newer toolchains goes on, see
`OnMemberError`), `omitempty`, and the allocation of nil pointers before a
nested `UnmarshalJSON` is called.

Two parts of the package are used by the file but declared elsewhere: the
table `ecIDToName` and the type `cryptoParameter`.  Both are parameters of
the definitions below (`Registry`, `cryptoParameter`).
-/

namespace Keys

/-! ## JSON documents and errors -/

/-- A parsed JSON document.  `num n` is a number written as a plain integer
literal with value `n`; `numLit` is any other number literal (one with a
fraction or an exponent, or negative zero), kept as its text. -/
inductive Json where
  | null
  | bool (b : Bool)
  | num (n : Int)
  | numLit (lit : String)
  | str (s : String)
  | arr (items : List Json)
  | obj (members : List (String × Json))

/-- Go `error` values that the methods can return. `unmarshalTypeError`
carries the `Value` field of `*json.UnmarshalTypeError`; `custom` is an
error made by the `cryptoParameter` methods; `marshalerError` is the
wrapper `json.Marshal` puts around an error of a `MarshalJSON` method. -/
inductive GoError where
  | unmarshalTypeError (value : String)
  | custom (msg : String)
  | marshalerError (inner : GoError)
  deriving DecidableEq, Repr

/-- How a call of an `UnmarshalJSON` method ends: it returns an `error`
(`none` is Go's `nil`) or it panics with a nil pointer dereference. -/
inductive Status where
  | returned (err : Option GoError)
  | panicked
  deriving DecidableEq, Repr

/-! ## Key lookup of `encoding/json` -/

/-- Representative of a rune under the case folding `encoding/json` uses to
compare an object key with an ASCII field name: ASCII letters fold to lower
case, and so do the Kelvin sign (to `k`) and the long s (to `s`). -/
def foldRune (c : Char) : Char :=
  if c.toNat = 0x212A then 'k'
  else if c.toNat = 0x017F then 's'
  else if 65 ≤ c.toNat ∧ c.toNat ≤ 90 then Char.ofNat (c.toNat + 32)
  else c

/-- Case-insensitive comparison of a field name with an object key. -/
def equalFold (name key : String) : Bool :=
  decide (name.data.map foldRune = key.data.map foldRune)

/-- The struct field an object key is stored into: the field whose name is
the key exactly, otherwise the first field whose name equals the key up to
case; `none` when the key is skipped. Every field comes with the tag the
decoder knows it by. -/
def findField {α : Type} (fields : List (String × α)) (key : String) : Option α :=
  match fields.find? (fun f => decide (f.1 = key)) with
  | some f => some f.2
  | none => (fields.find? (fun f => equalFold f.1 key)).map (fun f => f.2)

/-- The first error saved during a decode is the one reported
(`decodeState.saveError`). -/
def saveError (saved : Option GoError) (err : GoError) : Option GoError :=
  match saved with
  | some e => some e
  | none => some err

/-! ## Curve identifiers -/

/-- Go `type TLSCurveID uint16`; values are below `65536`. -/
abbrev TLSCurveID := Nat

/-- The conversion `uint16(v)`. -/
def uint16 (v : Nat) : Nat := v % 65536

/-- The table `ecIDToName` (declared outside this file): a map from curve
identifiers to names; `none` is a missing key. -/
abbrev Registry := TLSCurveID → Option String

/-- A registry with the entries for three well-known curves. -/
def sampleRegistry : Registry := fun c =>
  if c = 23 then some "secp256r1"
  else if c = 24 then some "secp384r1"
  else if c = 25 then some "secp521r1"
  else none

/-- Source `(c *TLSCurveID) Description`. -/
def TLSCurveID.Description (ecIDToName : Registry) (c : TLSCurveID) : String :=
  match ecIDToName c with
  | some desc => desc
  | none => "unknown"

/-- Source `(c *TLSCurveID) MarshalJSON`: `json.Marshal` of the auxiliary
struct with the fields `name` and `id`, in this order. -/
def TLSCurveID.MarshalJSON (ecIDToName : Registry) (c : TLSCurveID) : Except GoError Json :=
  let auxName : String := TLSCurveID.Description ecIDToName c
  let auxID : Nat := uint16 c
  .ok (.obj [("name", .str auxName), ("id", .num (Int.ofNat auxID))])

/-- Storing a JSON value into a `uint16` field that holds `cur`: `null`
leaves the field alone, an integer literal without sign and below `65536`
is stored, every other value is a type error and leaves the field alone.
For a number that does not fit, the error names the literal. -/
def storeUint16 (cur : Nat) (v : Json) : Nat × Option GoError :=
  match v with
  | .null => (cur, none)
  | .num (.ofNat k) =>
    if k < 65536 then (k, none)
    else (cur, some (.unmarshalTypeError ("number " ++ toString k)))
  | .num (.negSucc k) =>
    (cur, some (.unmarshalTypeError ("number -" ++ toString (k + 1))))
  | .numLit lit => (cur, some (.unmarshalTypeError ("number " ++ lit)))
  | .bool _ => (cur, some (.unmarshalTypeError "bool"))
  | .str _ => (cur, some (.unmarshalTypeError "string"))
  | .arr _ => (cur, some (.unmarshalTypeError "array"))
  | .obj _ => (cur, some (.unmarshalTypeError "object"))

/-- The field of the auxiliary struct of `TLSCurveID.UnmarshalJSON`, by its
JSON name. -/
def idFields : List (String × Unit) := [("id", ())]

/-- Decoding the members of an object into `struct { ID uint16 }`: the
state is the field and the saved error. Keys that match no field are
skipped; a type error is saved and decoding goes on. -/
def decodeIDMembers : List (String × Json) → Nat × Option GoError → Nat × Option GoError
  | [], st => st
  | (key, v) :: rest, (id, saved) =>
    match findField idFields key with
    | some _ =>
      match storeUint16 id v with
      | (id1, some err) => decodeIDMembers rest (id1, saveError saved err)
      | (id1, none) => decodeIDMembers rest (id1, saved)
    | none => decodeIDMembers rest (id, saved)

/-- The call `json.Unmarshal(b, &aux)` with `aux` the zero value of
`struct { ID uint16 }`: the value of `aux.ID` afterwards and the error. -/
def unmarshalAuxID (b : Json) : Nat × Option GoError :=
  match b with
  | .null => (0, none)
  | .obj members => decodeIDMembers members (0, none)
  | .bool _ => (0, some (.unmarshalTypeError "bool"))
  | .num _ => (0, some (.unmarshalTypeError "number"))
  | .numLit _ => (0, some (.unmarshalTypeError "number"))
  | .str _ => (0, some (.unmarshalTypeError "string"))
  | .arr _ => (0, some (.unmarshalTypeError "array"))

/-- Source `(c *TLSCurveID) UnmarshalJSON`: the receiver after the call
and how the call ended. -/
def TLSCurveID.UnmarshalJSON (c : TLSCurveID) (b : Json) : TLSCurveID × Status :=
  match unmarshalAuxID b with
  | (_, some err) => (c, .returned (some err))
  | (auxID, none) => (auxID, .returned none)

/-! ## Curve points -/

/-- The type `cryptoParameter` (declared outside this file): a wrapper of a
`*big.Int` with its own JSON methods.  `MarshalJSON` gets the wrapped
pointer (`none` is nil); `UnmarshalJSON` is called on a fresh wrapper and
gives the pointer it leaves there. -/
structure cryptoParameter where
  MarshalJSON : Option Int → Except GoError Json
  UnmarshalJSON : Json → Except GoError (Option Int)

/-- Source `type ECPoint struct`: two `*big.Int`, `none` is nil. -/
structure ECPoint where
  X : Option Int
  Y : Option Int
  deriving DecidableEq, Repr

/-- Source `(p *ECPoint) MarshalJSON`: `json.Marshal` of the auxiliary
struct, whose fields `x` and `y` are non-nil pointers to a `cryptoParameter`
wrapping `p.X` and `p.Y`; the first failing `MarshalJSON` ends the call. -/
def ECPoint.MarshalJSON (cp : cryptoParameter) (p : ECPoint) : Except GoError Json :=
  match cp.MarshalJSON p.X with
  | .error e => .error (.marshalerError e)
  | .ok jx =>
    match cp.MarshalJSON p.Y with
    | .error e => .error (.marshalerError e)
    | .ok jy => .ok (.obj [("x", jx), ("y", jy)])

/-- The auxiliary struct of `ECPoint.UnmarshalJSON`: two pointers to a
`cryptoParameter`; the outer `none` is a nil pointer, the inner one a nil
`Int` inside the wrapper. -/
structure AuxPoint where
  X : Option (Option Int)
  Y : Option (Option Int)
  deriving DecidableEq, Repr

/-- Tags of the two fields of `AuxPoint`. -/
inductive PointField where
  | x
  | y
  deriving DecidableEq, Repr

/-- The fields of `AuxPoint` by their JSON names, in declaration order. -/
def pointFields : List (String × PointField) := [("x", .x), ("y", .y)]

/-- Storing a JSON value into a field of type `*cryptoParameter`: `null`
sets the pointer to nil without calling the wrapper; for any other value
the pointer is made non-nil and the value is handed to the wrapper's
`UnmarshalJSON`, whose result is taken not to depend on what the wrapper
held before. -/
def storeCryptoParameter (cp : cryptoParameter) (v : Json) :
    Except GoError (Option (Option Int)) :=
  match v with
  | .null => .ok none
  | w =>
    match cp.UnmarshalJSON w with
    | .error e => .error e
    | .ok i => .ok (some i)

/-- Decoding the members of an object into `AuxPoint`, in input order. The
first error of the wrapper is the result: whether the decoder stops there
or goes on with the remaining members, that error is the one returned, and
`ECPoint.UnmarshalJSON` drops the auxiliary struct on an error. -/
def decodePointMembers (cp : cryptoParameter) :
    List (String × Json) → AuxPoint → Except GoError AuxPoint
  | [], aux => .ok aux
  | (key, v) :: rest, aux =>
    match findField pointFields key with
    | some .x =>
      match storeCryptoParameter cp v with
      | .error e => .error e
      | .ok x => decodePointMembers cp rest { aux with X := x }
    | some .y =>
      match storeCryptoParameter cp v with
      | .error e => .error e
      | .ok y => decodePointMembers cp rest { aux with Y := y }
    | none => decodePointMembers cp rest aux

/-- The call `json.Unmarshal(b, &aux)` with `aux` the zero `AuxPoint`. -/
def unmarshalAuxPoint (cp : cryptoParameter) (b : Json) : Except GoError AuxPoint :=
  match b with
  | .null => .ok ⟨none, none⟩
  | .obj members => decodePointMembers cp members ⟨none, none⟩
  | .bool _ => .error (.unmarshalTypeError "bool")
  | .num _ => .error (.unmarshalTypeError "number")
  | .numLit _ => .error (.unmarshalTypeError "number")
  | .str _ => .error (.unmarshalTypeError "string")
  | .arr _ => .error (.unmarshalTypeError "array")

/-- Source `(p *ECPoint) UnmarshalJSON`: the receiver after the call and
how the call ended.  `aux.X.Int` and `aux.Y.Int` dereference the pointers
of the auxiliary struct; on a nil pointer the call panics, after `p.X` was
assigned when the nil pointer is `aux.Y`. -/
def ECPoint.UnmarshalJSON (cp : cryptoParameter) (p : ECPoint) (b : Json) : ECPoint × Status :=
  match unmarshalAuxPoint cp b with
  | .error err => (p, .returned (some err))
  | .ok aux =>
    match aux.X with
    | none => (p, .panicked)
    | some x =>
      match aux.Y with
      | none => ({ p with X := x }, .panicked)
      | some y => ({ X := x, Y := y }, .returned none)

/-- A sample `cryptoParameter`: an integer is written as the object
`{"value": n}`, a nil pointer as `{"value": null}`. -/
def plainParameter : cryptoParameter where
  MarshalJSON := fun v =>
    match v with
    | some n => .ok (.obj [("value", .num n)])
    | none => .ok (.obj [("value", .null)])
  UnmarshalJSON := fun j =>
    match j with
    | .obj [("value", .num n)] => .ok (some n)
    | .obj [("value", .null)] => .ok none
    | _ => .error (.custom "malformed parameter")

/-- A sample `cryptoParameter` like `plainParameter` that refuses negative
integers in both directions. -/
def naturalParameter : cryptoParameter where
  MarshalJSON := fun v =>
    match v with
    | some n => if 0 ≤ n then .ok (.obj [("value", .num n)]) else .error (.custom "negative")
    | none => .ok (.obj [("value", .null)])
  UnmarshalJSON := fun j =>
    match j with
    | .obj [("value", .num n)] => if 0 ≤ n then .ok (some n) else .error (.custom "negative")
    | .obj [("value", .null)] => .ok none
    | _ => .error (.custom "malformed parameter")

/-! ## Parameter records -/

/-- A value of the interface `elliptic.Curve`, by the name and the bit size
of its parameters. -/
structure Curve where
  Name : String
  BitSize : Nat
  deriving DecidableEq, Repr

/-- Source `type ECDHParams struct`: `Curve` is an interface value and
`ServerPublic` a pointer, `none` is nil for both. -/
structure ECDHParams where
  TLSCurveID : TLSCurveID
  Curve : Option Curve
  ServerPublic : Option ECPoint
  deriving DecidableEq, Repr

/-- The zero value of `ECDHParams`, the target of a decode into a fresh
record. -/
def ECDHParams.zero : ECDHParams := ⟨0, none, none⟩

/-- A curve-parameter table: the curve value of an identifier, `none` when
the table does not know the identifier. No function of the source file
takes such a table. -/
abbrev CurveTable := TLSCurveID → Option Curve

/-- A sample curve-parameter table with the NIST curves of
`crypto/elliptic` under their TLS identifiers. -/
def sampleCurveTable : CurveTable := fun c =>
  if c = 23 then some ⟨"P-256", 256⟩
  else if c = 24 then some ⟨"P-384", 384⟩
  else if c = 25 then some ⟨"P-521", 521⟩
  else none

/-- The member `curve_id` of an encoded record (tag
`json:"curve_id,omitempty"`): left out when the identifier is zero,
otherwise written by `TLSCurveID.MarshalJSON`, which the encoder calls on
the address of the field. -/
def marshalCurveIDField (ecIDToName : Registry) (c : TLSCurveID) :
    Except GoError (List (String × Json)) :=
  if c = 0 then .ok []
  else
    match TLSCurveID.MarshalJSON ecIDToName c with
    | .error e => .error (.marshalerError e)
    | .ok j => .ok [("curve_id", j)]

/-- The member `server_public` of an encoded record (tag
`json:"server_public,omitempty"`): left out when the pointer is nil,
otherwise written by `ECPoint.MarshalJSON`. -/
def marshalServerPublicField (cp : cryptoParameter) (sp : Option ECPoint) :
    Except GoError (List (String × Json)) :=
  match sp with
  | none => .ok []
  | some p =>
    match ECPoint.MarshalJSON cp p with
    | .error e => .error (.marshalerError e)
    | .ok j => .ok [("server_public", j)]

/-- The call `json.Marshal(&r)` for `r` of type `ECDHParams`, which has no
`MarshalJSON` of its own: the fields are written in declaration order,
`Curve` (tag `json:"-"`) never. -/
def ECDHParams.jsonMarshal (ecIDToName : Registry) (cp : cryptoParameter) (r : ECDHParams) :
    Except GoError Json :=
  match marshalCurveIDField ecIDToName r.TLSCurveID with
  | .error e => .error e
  | .ok curveID =>
    match marshalServerPublicField cp r.ServerPublic with
    | .error e => .error e
    | .ok serverPublic => .ok (.obj (curveID ++ serverPublic))

/-- Tags of the fields of `ECDHParams` that have a JSON name. -/
inductive ParamsField where
  | curveID
  | serverPublic
  deriving DecidableEq, Repr

/-- The fields of `ECDHParams` by their JSON names, in declaration order. -/
def paramsFields : List (String × ParamsField) :=
  [("curve_id", .curveID), ("server_public", .serverPublic)]

/-- The pointee of `ServerPublic` when a value is decoded into it: a nil
pointer is first set to a new zero `ECPoint`. -/
def allocPoint (sp : Option ECPoint) : ECPoint :=
  match sp with
  | some p => p
  | none => ⟨none, none⟩

/-- Storing a JSON value into the field `ServerPublic *ECPoint`: `null`
sets the pointer to nil; for any other value the pointer is made non-nil
(`allocPoint`), then `ECPoint.UnmarshalJSON` runs on the pointee. -/
def storeServerPublic (cp : cryptoParameter) (sp : Option ECPoint) (v : Json) :
    Option ECPoint × Status :=
  match v with
  | .null => (none, .returned none)
  | w =>
    let res := ECPoint.UnmarshalJSON cp (allocPoint sp) w
    (some res.1, res.2)

/-- What `json.Unmarshal` does with the remaining members of an object once
the `UnmarshalJSON` method of a member has returned an error: the decoder
of older toolchains returns that error at once (`stop`); the decoder of
newer toolchains keeps the error, decodes the remaining members into the
target as well and returns the first error at the end (`goOn`). -/
inductive OnMemberError where
  | stop
  | goOn
  deriving DecidableEq, Repr

/-- Decoding one member of an object straight into its field of the target:
`TLSCurveID.UnmarshalJSON` runs on the address of the field `TLSCurveID`
for every value, `null` included; `ServerPublic` is stored by
`storeServerPublic`; a key that matches no field is skipped. -/
def decodeParamsMember (cp : cryptoParameter) (key : String) (v : Json) (r : ECDHParams) :
    ECDHParams × Status :=
  match findField paramsFields key with
  | some .curveID =>
    let res := TLSCurveID.UnmarshalJSON r.TLSCurveID v
    ({ r with TLSCurveID := res.1 }, res.2)
  | some .serverPublic =>
    let res := storeServerPublic cp r.ServerPublic v
    ({ r with ServerPublic := res.1 }, res.2)
  | none => (r, .returned none)

/-- The outcome of a decode that went on after a member failed with `e`:
the target is what the remaining members made of it and the error reported
is `e`, the first one; a panic among the remaining members stays a
panic. -/
def keepFirstError (e : GoError) (res : ECDHParams × Status) : ECDHParams × Status :=
  match res.2 with
  | .panicked => (res.1, .panicked)
  | .returned _ => (res.1, .returned (some e))

/-- Decoding the members of an object into a record, in input order. A
member whose decoder panics ends the decode; after a member whose decoder
returns an error the decode stops or goes on, as `onErr` says. -/
def decodeParamsMembers (onErr : OnMemberError) (cp : cryptoParameter) :
    List (String × Json) → ECDHParams → ECDHParams × Status
  | [], r => (r, .returned none)
  | (key, v) :: rest, r =>
    match decodeParamsMember cp key v r with
    | (r1, .returned none) => decodeParamsMembers onErr cp rest r1
    | (r1, .panicked) => (r1, .panicked)
    | (r1, .returned (some e)) =>
      match onErr with
      | .stop => (r1, .returned (some e))
      | .goOn => keepFirstError e (decodeParamsMembers onErr cp rest r1)

/-- The call `json.Unmarshal(b, &r)` for `r` of type `ECDHParams`, which
has no `UnmarshalJSON` of its own: the record after the call and how the
call ended. -/
def ECDHParams.jsonUnmarshal (onErr : OnMemberError) (cp : cryptoParameter) (r : ECDHParams)
    (b : Json) : ECDHParams × Status :=
  match b with
  | .null => (r, .returned none)
  | .obj members => decodeParamsMembers onErr cp members r
  | .bool _ => (r, .returned (some (.unmarshalTypeError "bool")))
  | .num _ => (r, .returned (some (.unmarshalTypeError "number")))
  | .numLit _ => (r, .returned (some (.unmarshalTypeError "number")))
  | .str _ => (r, .returned (some (.unmarshalTypeError "string")))
  | .arr _ => (r, .returned (some (.unmarshalTypeError "array")))

/-! ## Contract of the big-integer primitive -/

/-- The primitive is round-trip exact on non-negative integers: each one
has an encoding that the primitive decodes back to it. The encoding is not
the literal `null`, which a pointer field takes as nil without asking the
primitive (`storeCryptoParameter`). -/
def RoundTripExact (cp : cryptoParameter) : Prop :=
  ∀ n : Int, 0 ≤ n →
    ∃ j, cp.MarshalJSON (some n) = .ok j ∧ j ≠ .null ∧ cp.UnmarshalJSON j = .ok (some n)

theorem findField_id : findField idFields "id" = some () := by decide

theorem findField_id_name : findField idFields "name" = none := by decide

theorem decodeIDMembers_append (xs ys : List (String × Json)) (st : Nat × Option GoError) :
    decodeIDMembers (xs ++ ys) st = decodeIDMembers ys (decodeIDMembers xs st) := by
  induction xs generalizing st with
  | nil => rfl
  | cons m xs ih =>
    obtain ⟨key, v⟩ := m
    obtain ⟨id, saved⟩ := st
    simp only [List.cons_append, decodeIDMembers]
    cases findField idFields key with
    | none => exact ih _
    | some u =>
      simp only
      rcases hs : storeUint16 id v with ⟨id1, _ | err⟩
      · exact ih _
      · exact ih _

theorem decodeIDMembers_skip (ms : List (String × Json)) (st : Nat × Option GoError)
    (h : ∀ m ∈ ms, findField idFields m.1 = none) : decodeIDMembers ms st = st := by
  induction ms generalizing st with
  | nil => rfl
  | cons m ms ih =>
    obtain ⟨key, v⟩ := m
    obtain ⟨id, saved⟩ := st
    have hk : findField idFields key = none := h (key, v) (List.mem_cons_self _ _)
    simp only [decodeIDMembers, hk]
    exact ih _ (fun m hm => h m (List.mem_cons_of_mem _ hm))

theorem storeUint16_num (cur n : Nat) (h : n < 65536) :
    storeUint16 cur (.num (Int.ofNat n)) = (n, none) := by
  simp only [storeUint16, h, if_true]

theorem unmarshalJSON_id_among (n : Nat) (h : n < 65536) (pre post : List (String × Json))
    (hskip : ∀ m ∈ pre ++ post, findField idFields m.1 = none) (c0 : TLSCurveID) :
    TLSCurveID.UnmarshalJSON c0 (.obj (pre ++ ("id", .num (Int.ofNat n)) :: post))
      = (n, .returned none) := by
  have hpre : ∀ m ∈ pre, findField idFields m.1 = none :=
    fun m hm => hskip m (List.mem_append_left _ hm)
  have hpost : ∀ m ∈ post, findField idFields m.1 = none :=
    fun m hm => hskip m (List.mem_append_right _ hm)
  have hdec : decodeIDMembers (pre ++ ("id", .num (Int.ofNat n)) :: post) (0, none)
      = (n, none) := by
    rw [decodeIDMembers_append, decodeIDMembers_skip pre _ hpre]
    simp only [decodeIDMembers, findField_id, storeUint16_num _ n h]
    exact decodeIDMembers_skip post _ hpost
  simp only [TLSCurveID.UnmarshalJSON, unmarshalAuxID, hdec]

/-! ## Curve identifiers: properties -/

/-- C1: for every curve identifier `id` below 65536 and every registry,
`TLSCurveID.MarshalJSON` succeeds and `TLSCurveID.UnmarshalJSON` of its
output returns no error and leaves the receiver equal to `id`, whatever the
receiver held before and whether or not the registry knows `id`. -/
theorem curveID_roundtrip (ecIDToName : Registry) (id c0 : TLSCurveID) (h : id < 65536) :
    ∃ j, TLSCurveID.MarshalJSON ecIDToName id = .ok j ∧
      TLSCurveID.UnmarshalJSON c0 j = (id, .returned none) := by
  refine ⟨_, rfl, ?_⟩
  have hid : uint16 id = id := Nat.mod_eq_of_lt h
  simp only [hid]
  have hskip : ∀ m ∈ [(("name", Json.str (TLSCurveID.Description ecIDToName id)) : String × Json)]
      ++ [], findField idFields m.1 = none := by
    intro m hm
    simp only [List.append_nil, List.mem_singleton] at hm
    subst hm
    exact findField_id_name
  exact unmarshalJSON_id_among id h _ [] hskip c0

/-- Witness of C1 at the unregistered identifier 65535 and at the registered
identifier 23. -/
theorem curveID_roundtrip_witness :
    (65535 < 65536 ∧ ∃ j, TLSCurveID.MarshalJSON sampleRegistry 65535 = .ok j ∧
      TLSCurveID.UnmarshalJSON 0 j = (65535, .returned none)) ∧
    (∃ j, TLSCurveID.MarshalJSON sampleRegistry 23 = .ok j ∧
      TLSCurveID.UnmarshalJSON 7 j = (23, .returned none)) :=
  ⟨⟨by decide, curveID_roundtrip sampleRegistry 65535 0 (by decide)⟩,
    curveID_roundtrip sampleRegistry 23 7 (by decide)⟩

/-- C4: for every `n` below 65536 and every string `s`, decoding the object
with the members `id: n` and `name: s` returns no error and sets the
receiver to `n`; more generally the members around `id`, whatever their
values, are skipped as long as their keys are not a spelling of `id`. The
decoder takes no registry, so no identifier is refused as unknown. -/
theorem curveID_unmarshal_reads_only_id :
    (∀ (n : Nat) (s : String) (c0 : TLSCurveID), n < 65536 →
      TLSCurveID.UnmarshalJSON c0 (.obj [("id", .num (Int.ofNat n)), ("name", .str s)])
        = (n, .returned none)) ∧
    (∀ (n : Nat) (pre post : List (String × Json)) (c0 : TLSCurveID), n < 65536 →
      (∀ m ∈ pre ++ post, findField idFields m.1 = none) →
      TLSCurveID.UnmarshalJSON c0 (.obj (pre ++ ("id", .num (Int.ofNat n)) :: post))
        = (n, .returned none)) := by
  constructor
  · intro n s c0 h
    have hskip : ∀ m ∈ ([] : List (String × Json)) ++ [("name", Json.str s)],
        findField idFields m.1 = none := by
      intro m hm
      simp only [List.nil_append, List.mem_singleton] at hm
      subst hm
      exact findField_id_name
    exact unmarshalJSON_id_among n h [] _ hskip c0
  · intro n pre post c0 h hskip
    exact unmarshalJSON_id_among n h pre post hskip c0

/-- Witness of C4: the object `{"id": 23, "name": "bogus"}` decodes to 23,
and so does an object with further members before and after `id`. -/
theorem curveID_unmarshal_reads_only_id_witness :
    TLSCurveID.UnmarshalJSON 7 (.obj [("id", .num 23), ("name", .str "bogus")])
        = (23, .returned none) ∧
    TLSCurveID.UnmarshalJSON 7
        (.obj ([("iana", .bool true)] ++ ("id", .num 23) :: [("name", .str "bogus"), ("x", .null)]))
        = (23, .returned none) :=
  ⟨curveID_unmarshal_reads_only_id.1 23 "bogus" 7 (by decide),
    curveID_unmarshal_reads_only_id.2 23 [("iana", .bool true)]
      [("name", .str "bogus"), ("x", .null)] 7 (by decide) (by decide)⟩

/-- C5: `Description` is a total function of the identifier: it is the
registry's string when the identifier is a key of the registry and the
string `unknown` when it is not. -/
theorem description_eq_lookup_or_unknown (ecIDToName : Registry) (id : TLSCurveID) :
    (∀ name, ecIDToName id = some name → TLSCurveID.Description ecIDToName id = name) ∧
    (ecIDToName id = none → TLSCurveID.Description ecIDToName id = "unknown") ∧
    TLSCurveID.Description ecIDToName id = (ecIDToName id).getD "unknown" := by
  unfold TLSCurveID.Description
  cases h : ecIDToName id with
  | none => simp
  | some d => simp

/-- C6: for every identifier below 65536, `TLSCurveID.MarshalJSON` succeeds
with the object whose members are exactly `name`, the `Description` of the
identifier, and `id`, the identifier as a number; for an identifier missing
from the registry the name is `unknown`. -/
theorem curveID_marshal_shape (ecIDToName : Registry) (id : TLSCurveID) (h : id < 65536) :
    TLSCurveID.MarshalJSON ecIDToName id
      = .ok (.obj [("name", .str (TLSCurveID.Description ecIDToName id)),
          ("id", .num (Int.ofNat id))]) ∧
    (ecIDToName id = none →
      TLSCurveID.MarshalJSON ecIDToName id
        = .ok (.obj [("name", .str "unknown"), ("id", .num (Int.ofNat id))])) := by
  have hid : uint16 id = id := Nat.mod_eq_of_lt h
  constructor
  · simp only [TLSCurveID.MarshalJSON, hid]
  · intro hnone
    simp only [TLSCurveID.MarshalJSON, hid, TLSCurveID.Description, hnone]

/-- Witness of C6 at 65535, which the sample registry does not hold. -/
theorem curveID_marshal_shape_witness :
    65535 < 65536 ∧ sampleRegistry 65535 = none ∧
    TLSCurveID.MarshalJSON sampleRegistry 65535
      = .ok (.obj [("name", .str "unknown"), ("id", .num 65535)]) :=
  ⟨by decide, by decide,
    (curveID_marshal_shape sampleRegistry 65535 (by decide)).2 (by decide)⟩

/-! ## Curve points: lemmas -/

theorem findField_x : findField pointFields "x" = some .x := by decide

theorem findField_y : findField pointFields "y" = some .y := by decide

theorem storeCryptoParameter_of_ne_null (cp : cryptoParameter) (j : Json) (i : Option Int)
    (hj : j ≠ .null) (hdec : cp.UnmarshalJSON j = .ok i) :
    storeCryptoParameter cp j = .ok (some i) := by
  cases j <;> first | exact absurd rfl hj | simp only [storeCryptoParameter, hdec]

theorem point_decode_encode (cp : cryptoParameter) (hrt : RoundTripExact cp) (x y : Int)
    (hx : 0 ≤ x) (hy : 0 ≤ y) (p0 : ECPoint) :
    ∃ jx jy, jx ≠ .null ∧ jy ≠ .null ∧
      ECPoint.MarshalJSON cp ⟨some x, some y⟩ = .ok (.obj [("x", jx), ("y", jy)]) ∧
      ECPoint.UnmarshalJSON cp p0 (.obj [("x", jx), ("y", jy)])
        = (⟨some x, some y⟩, .returned none) := by
  obtain ⟨jx, hmx, hnx, hux⟩ := hrt x hx
  obtain ⟨jy, hmy, hny, huy⟩ := hrt y hy
  refine ⟨jx, jy, hnx, hny, ?_, ?_⟩
  · simp only [ECPoint.MarshalJSON, hmx, hmy]
  · have hsx := storeCryptoParameter_of_ne_null cp jx (some x) hnx hux
    have hsy := storeCryptoParameter_of_ne_null cp jy (some y) hny huy
    simp only [ECPoint.UnmarshalJSON, unmarshalAuxPoint, decodePointMembers, findField_x,
      findField_y, hsx, hsy]

theorem plainParameter_roundTripExact : RoundTripExact plainParameter := by
  intro n _
  refine ⟨.obj [("value", .num n)], rfl, ?_, rfl⟩
  intro h
  cases h

theorem naturalParameter_roundTripExact : RoundTripExact naturalParameter := by
  intro n hn
  refine ⟨.obj [("value", .num n)], ?_, ?_, ?_⟩
  · simp only [naturalParameter, hn, if_true]
  · intro h
    cases h
  · simp only [naturalParameter, hn, if_true]

/-- C2: for all non-negative integers `x` and `y`, provided the big-integer
primitive is round-trip exact on non-negative integers,
`ECPoint.MarshalJSON` of the point `(x, y)` succeeds and
`ECPoint.UnmarshalJSON` of its output returns no error and leaves the
receiver with `X = x` and `Y = y`, whatever it held before. -/
theorem point_roundtrip (cp : cryptoParameter) (hrt : RoundTripExact cp) (x y : Int)
    (hx : 0 ≤ x) (hy : 0 ≤ y) (p0 : ECPoint) :
    ∃ j, ECPoint.MarshalJSON cp ⟨some x, some y⟩ = .ok j ∧
      ECPoint.UnmarshalJSON cp p0 j = (⟨some x, some y⟩, .returned none) := by
  obtain ⟨jx, jy, _, _, hm, hu⟩ := point_decode_encode cp hrt x y hx hy p0
  exact ⟨_, hm, hu⟩

/-- Witness of C2 with the sample primitive at the point `(1, 2)`. -/
theorem point_roundtrip_witness :
    RoundTripExact plainParameter ∧ (0 : Int) ≤ 1 ∧ (0 : Int) ≤ 2 ∧
    ∃ j, ECPoint.MarshalJSON plainParameter ⟨some 1, some 2⟩ = .ok j ∧
      ECPoint.UnmarshalJSON plainParameter ⟨none, none⟩ j
        = (⟨some 1, some 2⟩, .returned none) :=
  ⟨plainParameter_roundTripExact, by decide, by decide,
    point_roundtrip plainParameter plainParameter_roundTripExact 1 2 (by decide) (by decide)
      ⟨none, none⟩⟩

/-- C7: what `ECPoint.UnmarshalJSON` does on an object that lacks `x` or
`y`: the pointer of the auxiliary struct stays nil and the assignment from
`aux.X.Int` or `aux.Y.Int` dereferences it, so the call panics and returns
no error. With both members missing, or `x` missing, the receiver is as
before; with only `y` missing `X` is already assigned. -/
theorem point_unmarshal_missing_field_panics :
    (∀ (cp : cryptoParameter) (p : ECPoint),
      ECPoint.UnmarshalJSON cp p (.obj []) = (p, .panicked)) ∧
    (∀ (cp : cryptoParameter) (p : ECPoint) (jx : Json) (x : Option Int),
      jx ≠ .null → cp.UnmarshalJSON jx = .ok x →
      ECPoint.UnmarshalJSON cp p (.obj [("x", jx)]) = (⟨x, p.Y⟩, .panicked)) ∧
    (∀ (cp : cryptoParameter) (p : ECPoint) (jy : Json) (y : Option Int),
      jy ≠ .null → cp.UnmarshalJSON jy = .ok y →
      ECPoint.UnmarshalJSON cp p (.obj [("y", jy)]) = (p, .panicked)) ∧
    ECPoint.UnmarshalJSON plainParameter ⟨none, none⟩ (.obj [("x", .obj [("value", .num 1)])])
      = (⟨some 1, none⟩, .panicked) := by
  refine ⟨?_, ?_, ?_, by decide⟩
  · intro cp p
    rfl
  · intro cp p jx x hn hd
    have hs := storeCryptoParameter_of_ne_null cp jx x hn hd
    simp only [ECPoint.UnmarshalJSON, unmarshalAuxPoint, decodePointMembers, findField_x, hs]
  · intro cp p jy y hn hd
    have hs := storeCryptoParameter_of_ne_null cp jy y hn hd
    simp only [ECPoint.UnmarshalJSON, unmarshalAuxPoint, decodePointMembers, findField_y, hs]

theorem findField_curve_id : findField paramsFields "curve_id" = some .curveID := by decide

theorem findField_server_public :
    findField paramsFields "server_public" = some .serverPublic := by decide

theorem curveID_unmarshal_marshaled (ecIDToName : Registry) (id c0 : TLSCurveID)
    (h : id < 65536) :
    TLSCurveID.UnmarshalJSON c0
        (.obj [("name", .str (TLSCurveID.Description ecIDToName id)), ("id", .num (Int.ofNat id))])
      = (id, .returned none) := by
  have hskip : ∀ m ∈ [(("name", Json.str (TLSCurveID.Description ecIDToName id)) : String × Json)]
      ++ [], findField idFields m.1 = none := by
    intro m hm
    simp only [List.append_nil, List.mem_singleton] at hm
    subst hm
    exact findField_id_name
  exact unmarshalJSON_id_among id h _ [] hskip c0

theorem marshalCurveIDField_of_ne_zero (ecIDToName : Registry) (c : TLSCurveID) (hz : c ≠ 0)
    (h : c < 65536) :
    marshalCurveIDField ecIDToName c
      = .ok [("curve_id", .obj [("name", .str (TLSCurveID.Description ecIDToName c)),
          ("id", .num (Int.ofNat c))])] := by
  have hid : uint16 c = c := Nat.mod_eq_of_lt h
  simp only [marshalCurveIDField, hz, if_false, TLSCurveID.MarshalJSON, hid]

theorem decodeParamsMembers_cons_ok (onErr : OnMemberError) (cp : cryptoParameter)
    (key : String) (v : Json) (rest : List (String × Json)) (r r1 : ECDHParams)
    (h : decodeParamsMember cp key v r = (r1, .returned none)) :
    decodeParamsMembers onErr cp ((key, v) :: rest) r = decodeParamsMembers onErr cp rest r1 := by
  simp only [decodeParamsMembers, h]

theorem decodeParamsMembers_curve_id (onErr : OnMemberError) (cp : cryptoParameter)
    (ecIDToName : Registry) (r : ECDHParams) (id : TLSCurveID) (h : id < 65536)
    (rest : List (String × Json)) :
    decodeParamsMembers onErr cp
        (("curve_id", .obj [("name", .str (TLSCurveID.Description ecIDToName id)),
          ("id", .num (Int.ofNat id))]) :: rest) r
      = decodeParamsMembers onErr cp rest { r with TLSCurveID := id } := by
  apply decodeParamsMembers_cons_ok
  simp only [decodeParamsMember, findField_curve_id,
    curveID_unmarshal_marshaled ecIDToName id r.TLSCurveID h]

theorem storeServerPublic_of_ne_null (cp : cryptoParameter) (sp : Option ECPoint) (v : Json)
    (hv : v ≠ .null) :
    storeServerPublic cp sp v
      = (some (ECPoint.UnmarshalJSON cp (allocPoint sp) v).1,
          (ECPoint.UnmarshalJSON cp (allocPoint sp) v).2) := by
  cases v <;> first | exact absurd rfl hv | rfl

theorem decodeParamsMembers_server_public (onErr : OnMemberError) (cp : cryptoParameter)
    (r : ECDHParams) (jx jy : Json) (q : ECPoint)
    (hq : ∀ p0, ECPoint.UnmarshalJSON cp p0 (.obj [("x", jx), ("y", jy)]) = (q, .returned none))
    (rest : List (String × Json)) :
    decodeParamsMembers onErr cp (("server_public", .obj [("x", jx), ("y", jy)]) :: rest) r
      = decodeParamsMembers onErr cp rest { r with ServerPublic := some q } := by
  have hne : Json.obj [("x", jx), ("y", jy)] ≠ .null := by
    intro hn
    cases hn
  apply decodeParamsMembers_cons_ok
  simp only [decodeParamsMember, findField_server_public,
    storeServerPublic_of_ne_null cp _ _ hne, hq]

theorem params_decode_encode (onErr : OnMemberError) (ecIDToName : Registry)
    (cp : cryptoParameter) (hrt : RoundTripExact cp) (r : ECDHParams)
    (hid : r.TLSCurveID < 65536)
    (hsp : ∀ p, r.ServerPublic = some p → ∃ x y : Int, 0 ≤ x ∧ 0 ≤ y ∧ p = ⟨some x, some y⟩) :
    ∃ j, ECDHParams.jsonMarshal ecIDToName cp r = .ok j ∧
      ECDHParams.jsonUnmarshal onErr cp ECDHParams.zero j
        = (⟨r.TLSCurveID, none, r.ServerPublic⟩, .returned none) := by
  obtain ⟨id, curve, sp⟩ := r
  simp only at hid hsp
  cases sp with
  | none =>
    by_cases hz : id = 0
    · subst hz
      exact ⟨.obj [], rfl, rfl⟩
    · refine ⟨.obj [("curve_id", .obj [("name", .str (TLSCurveID.Description ecIDToName id)),
          ("id", .num (Int.ofNat id))])], ?_, ?_⟩
      · simp only [ECDHParams.jsonMarshal, marshalCurveIDField_of_ne_zero ecIDToName id hz hid,
          marshalServerPublicField, List.append_nil]
      · show decodeParamsMembers onErr cp _ ECDHParams.zero = _
        rw [decodeParamsMembers_curve_id onErr cp ecIDToName _ id hid]
        rfl
  | some p =>
    obtain ⟨x, y, hx, hy, hp⟩ := hsp p rfl
    subst hp
    obtain ⟨jx, jy, _, _, hm, _⟩ := point_decode_encode cp hrt x y hx hy ⟨none, none⟩
    have hq : ∀ p0, ECPoint.UnmarshalJSON cp p0 (.obj [("x", jx), ("y", jy)])
        = (⟨some x, some y⟩, .returned none) := by
      intro p0
      obtain ⟨kx, ky, _, _, hm1, hu1⟩ := point_decode_encode cp hrt x y hx hy p0
      rw [hm] at hm1
      simp only [Except.ok.injEq, Json.obj.injEq, List.cons.injEq, Prod.mk.injEq, true_and,
        and_true] at hm1
      obtain ⟨h1, h2⟩ := hm1
      subst h1
      subst h2
      exact hu1
    by_cases hz : id = 0
    · subst hz
      refine ⟨.obj [("server_public", .obj [("x", jx), ("y", jy)])], ?_, ?_⟩
      · simp only [ECDHParams.jsonMarshal, marshalCurveIDField, if_true,
          marshalServerPublicField, hm, List.nil_append]
      · show decodeParamsMembers onErr cp _ ECDHParams.zero = _
        rw [decodeParamsMembers_server_public onErr cp _ jx jy _ hq]
        rfl
    · refine ⟨.obj [("curve_id", .obj [("name", .str (TLSCurveID.Description ecIDToName id)),
          ("id", .num (Int.ofNat id))]), ("server_public", .obj [("x", jx), ("y", jy)])], ?_, ?_⟩
      · simp only [ECDHParams.jsonMarshal, marshalCurveIDField_of_ne_zero ecIDToName id hz hid,
          marshalServerPublicField, hm, List.cons_append, List.nil_append]
      · show decodeParamsMembers onErr cp _ ECDHParams.zero = _
        rw [decodeParamsMembers_curve_id onErr cp ecIDToName _ id hid,
          decodeParamsMembers_server_public onErr cp _ jx jy _ hq]
        rfl

theorem curve_id_ne_server_public : ("curve_id" : String) ≠ "server_public" := by decide

theorem marshalCurveIDField_eq (ecIDToName : Registry) (c : TLSCurveID) :
    marshalCurveIDField ecIDToName c
      = .ok (if c = 0 then []
          else [("curve_id", .obj [("name", .str (TLSCurveID.Description ecIDToName c)),
            ("id", .num (Int.ofNat (uint16 c)))])]) := by
  unfold marshalCurveIDField
  by_cases hz : c = 0
  · simp only [hz, if_true]
  · simp only [hz, if_false, TLSCurveID.MarshalJSON]

theorem ECPoint_MarshalJSON_ne_null (cp : cryptoParameter) (p : ECPoint) (v : Json)
    (h : ECPoint.MarshalJSON cp p = .ok v) : v ≠ .null := by
  unfold ECPoint.MarshalJSON at h
  cases hx : cp.MarshalJSON p.X with
  | error e => simp [hx] at h
  | ok jx =>
    cases hy : cp.MarshalJSON p.Y with
    | error e => simp [hx, hy] at h
    | ok jy =>
      simp only [hx, hy, Except.ok.injEq] at h
      subst h
      intro hn
      cases hn

theorem curveID_unmarshal_error_unchanged (c c1 : TLSCurveID) (b : Json) (e : GoError)
    (h : TLSCurveID.UnmarshalJSON c b = (c1, .returned (some e))) : c1 = c := by
  unfold TLSCurveID.UnmarshalJSON at h
  rcases hu : unmarshalAuxID b with ⟨auxID, _ | err⟩
  · simp [hu] at h
  · simp only [hu, Prod.mk.injEq] at h
    exact h.1.symm

theorem curveID_unmarshal_never_panics (c c1 : TLSCurveID) (b : Json) :
    TLSCurveID.UnmarshalJSON c b ≠ (c1, .panicked) := by
  unfold TLSCurveID.UnmarshalJSON
  rcases hu : unmarshalAuxID b with ⟨auxID, _ | err⟩ <;> simp

theorem point_unmarshal_error_unchanged (cp : cryptoParameter) (p p1 : ECPoint) (b : Json)
    (e : GoError) (h : ECPoint.UnmarshalJSON cp p b = (p1, .returned (some e))) : p1 = p := by
  unfold ECPoint.UnmarshalJSON at h
  cases hu : unmarshalAuxPoint cp b with
  | error err =>
    simp only [hu, Prod.mk.injEq] at h
    exact h.1.symm
  | ok aux =>
    obtain ⟨ax, ay⟩ := aux
    cases ax with
    | none => simp [hu] at h
    | some x =>
      cases ay with
      | none => simp [hu] at h
      | some y => simp [hu] at h

theorem keepFirstError_fst (e : GoError) (res : ECDHParams × Status) :
    (keepFirstError e res).1 = res.1 := by
  obtain ⟨r, st⟩ := res
  cases st <;> rfl

/-- C3: for every record whose curve identifier is below 65536 and whose
public point is nil or holds two non-negative coordinates, provided the
big-integer primitive is round-trip exact, `json.Marshal` of the record
succeeds and `json.Unmarshal` of the output into a zero record returns no
error and leaves the same curve identifier and the same public point (nil
stays nil, a point keeps both coordinates). -/
theorem params_roundtrip (onErr : OnMemberError) (ecIDToName : Registry)
    (cp : cryptoParameter) (hrt : RoundTripExact cp) (r : ECDHParams)
    (hid : r.TLSCurveID < 65536)
    (hsp : ∀ p, r.ServerPublic = some p → ∃ x y : Int, 0 ≤ x ∧ 0 ≤ y ∧ p = ⟨some x, some y⟩) :
    ∃ j r1, ECDHParams.jsonMarshal ecIDToName cp r = .ok j ∧
      ECDHParams.jsonUnmarshal onErr cp ECDHParams.zero j = (r1, .returned none) ∧
      r1.TLSCurveID = r.TLSCurveID ∧ r1.ServerPublic = r.ServerPublic := by
  obtain ⟨j, hm, hu⟩ := params_decode_encode onErr ecIDToName cp hrt r hid hsp
  exact ⟨j, _, hm, hu, rfl, rfl⟩

/-- Witness of C3: the record with curve 23 and the point `(1, 2)`, under
both decoders, and the record with curve 0 and no point. -/
theorem params_roundtrip_witness :
    (∃ j r1, ECDHParams.jsonMarshal sampleRegistry plainParameter
        ⟨23, some ⟨"P-256", 256⟩, some ⟨some 1, some 2⟩⟩ = .ok j ∧
      ECDHParams.jsonUnmarshal .stop plainParameter ECDHParams.zero j
        = (r1, .returned none) ∧
      r1.TLSCurveID = 23 ∧ r1.ServerPublic = some ⟨some 1, some 2⟩) ∧
    (∃ j r1, ECDHParams.jsonMarshal sampleRegistry plainParameter
        ⟨23, some ⟨"P-256", 256⟩, some ⟨some 1, some 2⟩⟩ = .ok j ∧
      ECDHParams.jsonUnmarshal .goOn plainParameter ECDHParams.zero j
        = (r1, .returned none) ∧
      r1.TLSCurveID = 23 ∧ r1.ServerPublic = some ⟨some 1, some 2⟩) ∧
    (∃ j r1, ECDHParams.jsonMarshal sampleRegistry plainParameter ⟨0, none, none⟩ = .ok j ∧
      ECDHParams.jsonUnmarshal .goOn plainParameter ECDHParams.zero j
        = (r1, .returned none) ∧
      r1.TLSCurveID = 0 ∧ r1.ServerPublic = none) :=
  ⟨params_roundtrip .stop sampleRegistry plainParameter plainParameter_roundTripExact
      ⟨23, some ⟨"P-256", 256⟩, some ⟨some 1, some 2⟩⟩ (by decide)
      (fun p hp => ⟨1, 2, by decide, by decide, (Option.some.inj hp).symm⟩),
    params_roundtrip .goOn sampleRegistry plainParameter plainParameter_roundTripExact
      ⟨23, some ⟨"P-256", 256⟩, some ⟨some 1, some 2⟩⟩ (by decide)
      (fun p hp => ⟨1, 2, by decide, by decide, (Option.some.inj hp).symm⟩),
    params_roundtrip .goOn sampleRegistry plainParameter plainParameter_roundTripExact
      ⟨0, none, none⟩ (by decide) (fun p hp => nomatch hp)⟩

/-- C9: the encoding of a record, where the record has a curve identity when
`TLSCurveID` is not zero and a public point when `ServerPublic` is not nil.
Encoding succeeds exactly when the point, if any, encodes. The output is an
object whose keys are among `curve_id` and `server_public`, each at most
once and none with the value `null`; `curve_id` is a key exactly when the
record has a curve identity, and its value is the output of
`TLSCurveID.MarshalJSON`; `server_public` is a key exactly when the record
has a public point, and its value is the output of `ECPoint.MarshalJSON`. A
record with neither encodes to the empty object. -/
theorem params_marshal_members (ecIDToName : Registry) (cp : cryptoParameter) (r : ECDHParams) :
    ((∃ j, ECDHParams.jsonMarshal ecIDToName cp r = .ok j) ↔
      ∀ p, r.ServerPublic = some p → ∃ v, ECPoint.MarshalJSON cp p = .ok v) ∧
    (∀ j, ECDHParams.jsonMarshal ecIDToName cp r = .ok j →
      ∃ ms, j = .obj ms ∧
        (ms.map Prod.fst).Nodup ∧
        (∀ m ∈ ms, m.1 = "curve_id" ∨ m.1 = "server_public") ∧
        (∀ m ∈ ms, m.2 ≠ .null) ∧
        ((∃ v, ("curve_id", v) ∈ ms) ↔ r.TLSCurveID ≠ 0) ∧
        (∀ v, ("curve_id", v) ∈ ms → TLSCurveID.MarshalJSON ecIDToName r.TLSCurveID = .ok v) ∧
        ((∃ v, ("server_public", v) ∈ ms) ↔ r.ServerPublic ≠ none) ∧
        (∀ v, ("server_public", v) ∈ ms →
          ∃ p, r.ServerPublic = some p ∧ ECPoint.MarshalJSON cp p = .ok v)) ∧
    (r.TLSCurveID = 0 → r.ServerPublic = none →
      ECDHParams.jsonMarshal ecIDToName cp r = .ok (.obj [])) := by
  obtain ⟨id, curve, sp⟩ := r
  have hne := curve_id_ne_server_public
  simp only [ECDHParams.jsonMarshal, marshalCurveIDField_eq]
  cases sp with
  | none =>
    by_cases hz : id = 0
    · simp [hz, marshalServerPublicField]
    · simp [hz, marshalServerPublicField, TLSCurveID.MarshalJSON, hne]
  | some p =>
    cases hp : ECPoint.MarshalJSON cp p with
    | error e =>
      by_cases hz : id = 0
      · simp [hz, marshalServerPublicField, hp]
      · simp [hz, marshalServerPublicField, hp]
    | ok v =>
      have hv := ECPoint_MarshalJSON_ne_null cp p v hp
      by_cases hz : id = 0
      · simp [hz, marshalServerPublicField, hp, hne.symm, hv]
      · simp [hz, marshalServerPublicField, hp, hne, hne.symm, hv, TLSCurveID.MarshalJSON]
        refine ⟨?_, ?_⟩
        · rintro a b (⟨ha, _⟩ | ⟨ha, _⟩)
          · exact Or.inl ha
          · exact Or.inr ha
        · rintro a b (⟨_, hb⟩ | ⟨_, hb⟩)
          · rw [hb]
            intro hn
            cases hn
          · rw [hb]
            exact hv

/-- Witness of C9: a record with curve identifier 0 and a nil point encodes
to the empty object, whatever its `Curve`; with curve 23 and the point
`(1, 2)` the encoding exists. -/
theorem params_marshal_members_witness :
    ECDHParams.jsonMarshal sampleRegistry plainParameter ⟨0, some ⟨"P-256", 256⟩, none⟩
      = .ok (.obj []) ∧
    ∃ j, ECDHParams.jsonMarshal sampleRegistry plainParameter
      ⟨23, none, some ⟨some 1, some 2⟩⟩ = .ok j :=
  ⟨(params_marshal_members sampleRegistry plainParameter ⟨0, some ⟨"P-256", 256⟩, none⟩).2.2
      rfl rfl,
    (params_marshal_members sampleRegistry plainParameter
      ⟨23, none, some ⟨some 1, some 2⟩⟩).1.mpr
      (fun p hp => ⟨.obj [("x", .obj [("value", .num 1)]), ("y", .obj [("value", .num 2)])],
        by cases hp; rfl⟩)⟩

theorem decodeParamsMember_Curve (cp : cryptoParameter) (key : String) (v : Json)
    (r : ECDHParams) : (decodeParamsMember cp key v r).1.Curve = r.Curve := by
  unfold decodeParamsMember
  cases hf : findField paramsFields key with
  | none => rfl
  | some f => cases f <;> rfl

theorem decodeParamsMembers_Curve (onErr : OnMemberError) (cp : cryptoParameter)
    (ms : List (String × Json)) (r : ECDHParams) :
    (decodeParamsMembers onErr cp ms r).1.Curve = r.Curve := by
  induction ms generalizing r with
  | nil => rfl
  | cons m ms ih =>
    obtain ⟨key, v⟩ := m
    have hone := decodeParamsMember_Curve cp key v r
    simp only [decodeParamsMembers]
    rcases hm : decodeParamsMember cp key v r with ⟨r1, ⟨_ | e⟩ | _⟩
    · rw [hm] at hone
      simp only
      rw [ih r1]
      exact hone
    · rw [hm] at hone
      cases onErr with
      | stop => exact hone
      | goOn =>
        simp only
        rw [keepFirstError_fst, ih r1]
        exact hone
    · rw [hm] at hone
      exact hone

theorem jsonUnmarshal_Curve (onErr : OnMemberError) (cp : cryptoParameter) (r : ECDHParams)
    (b : Json) : (ECDHParams.jsonUnmarshal onErr cp r b).1.Curve = r.Curve := by
  cases b with
  | obj ms => exact decodeParamsMembers_Curve onErr cp ms r
  | null => rfl
  | bool _ => rfl
  | num _ => rfl
  | numLit _ => rfl
  | str _ => rfl
  | arr _ => rfl

/-- C11, as stated, fails: decoding `{"curve_id": {"id": 23}}` into a zero
record returns no error and sets the curve identifier to 23, but `Curve`
stays nil although the sample table has a curve for 23. This is so under
both decoders. -/
theorem params_unmarshal_leaves_curve_nil :
    ECDHParams.jsonUnmarshal .stop plainParameter ECDHParams.zero
        (.obj [("curve_id", .obj [("id", .num 23)])])
      = (⟨23, none, none⟩, .returned none) ∧
    ECDHParams.jsonUnmarshal .goOn plainParameter ECDHParams.zero
        (.obj [("curve_id", .obj [("id", .num 23)])])
      = (⟨23, none, none⟩, .returned none) ∧
    sampleCurveTable 23 = some ⟨"P-256", 256⟩ ∧
    (⟨23, none, none⟩ : ECDHParams).Curve ≠ sampleCurveTable 23 := by
  refine ⟨by decide, by decide, by decide, by decide⟩

/-- C11, amended: decoding a record never resolves the curve descriptor.
Whatever the input, whichever the decoder and however the call ends,
`Curve` is after the call what the target held before it: nil in a zero
record, for identifiers a curve table knows and for the others alike. -/
theorem params_unmarshal_keeps_curve (onErr : OnMemberError) (cp : cryptoParameter)
    (r : ECDHParams) (b : Json) :
    (ECDHParams.jsonUnmarshal onErr cp r b).1.Curve = r.Curve ∧
    (ECDHParams.jsonUnmarshal onErr cp ECDHParams.zero b).1.Curve = none :=
  ⟨jsonUnmarshal_Curve onErr cp r b, jsonUnmarshal_Curve onErr cp ECDHParams.zero b⟩

/-- C12: the curve descriptor is never serialized. Two records with the
same curve identifier and the same public point have the same encoding
whatever their `Curve`; decoding leaves `Curve` as the target held it,
whatever the input and the decoder; and a member keyed `Curve` (or
`curve`, or `-`) is skipped like any unknown key. -/
theorem curve_never_serialized (ecIDToName : Registry) (cp : cryptoParameter) :
    (∀ (id : TLSCurveID) (sp : Option ECPoint) (c1 c2 : Option Curve),
      ECDHParams.jsonMarshal ecIDToName cp ⟨id, c1, sp⟩
        = ECDHParams.jsonMarshal ecIDToName cp ⟨id, c2, sp⟩) ∧
    (∀ (onErr : OnMemberError) (r : ECDHParams) (b : Json),
      (ECDHParams.jsonUnmarshal onErr cp r b).1.Curve = r.Curve) ∧
    (∀ (onErr : OnMemberError) (key : String) (v : Json) (rest : List (String × Json))
        (r : ECDHParams),
      key = "Curve" ∨ key = "curve" ∨ key = "-" →
      ECDHParams.jsonUnmarshal onErr cp r (.obj ((key, v) :: rest))
        = ECDHParams.jsonUnmarshal onErr cp r (.obj rest)) := by
  refine ⟨?_, ?_, ?_⟩
  · intro id sp c1 c2
    rfl
  · intro onErr r b
    exact jsonUnmarshal_Curve onErr cp r b
  · intro onErr key v rest r hkey
    have hf : findField paramsFields key = none := by
      rcases hkey with h | h | h <;> subst h <;> decide
    have hone : decodeParamsMember cp key v r = (r, .returned none) := by
      simp only [decodeParamsMember, hf]
    exact decodeParamsMembers_cons_ok onErr cp key v rest r r hone

/-- Witness of C12: two records with curve 23 and the point `(1, 2)`, one
with a curve value and one without, have the same encoding, and an input
member keyed `Curve` does not reach the decoded record. -/
theorem curve_never_serialized_witness :
    ECDHParams.jsonMarshal sampleRegistry plainParameter
        ⟨23, some ⟨"P-256", 256⟩, some ⟨some 1, some 2⟩⟩
      = ECDHParams.jsonMarshal sampleRegistry plainParameter
        ⟨23, none, some ⟨some 1, some 2⟩⟩ ∧
    ECDHParams.jsonUnmarshal .goOn plainParameter ECDHParams.zero
        (.obj [("Curve", .str "P-256"), ("curve_id", .obj [("id", .num 23)])])
      = ECDHParams.jsonUnmarshal .goOn plainParameter ECDHParams.zero
        (.obj [("curve_id", .obj [("id", .num 23)])]) :=
  ⟨(curve_never_serialized sampleRegistry plainParameter).1 23 (some ⟨some 1, some 2⟩)
      (some ⟨"P-256", 256⟩) none,
    (curve_never_serialized sampleRegistry plainParameter).2.2 .goOn "Curve" (.str "P-256")
      [("curve_id", .obj [("id", .num 23)])] ECDHParams.zero (Or.inl rfl)⟩

/-- C13: for every point with both coordinates present,
`ECPoint.MarshalJSON` returns the object whose members are exactly `x`, the
primitive's encoding of `X`, and `y`, the primitive's encoding of `Y`, in
this order; it returns an error only when the primitive fails on `X` or on
`Y`, and the error wraps the primitive's. -/
theorem point_marshal_shape (cp : cryptoParameter) (x y : Int) :
    (∀ jx jy, cp.MarshalJSON (some x) = .ok jx → cp.MarshalJSON (some y) = .ok jy →
      ECPoint.MarshalJSON cp ⟨some x, some y⟩ = .ok (.obj [("x", jx), ("y", jy)])) ∧
    (∀ j, ECPoint.MarshalJSON cp ⟨some x, some y⟩ = .ok j →
      ∃ jx jy, cp.MarshalJSON (some x) = .ok jx ∧ cp.MarshalJSON (some y) = .ok jy ∧
        j = .obj [("x", jx), ("y", jy)]) ∧
    (∀ e, ECPoint.MarshalJSON cp ⟨some x, some y⟩ = .error e →
      ∃ e0, e = .marshalerError e0 ∧
        (cp.MarshalJSON (some x) = .error e0 ∨ cp.MarshalJSON (some y) = .error e0)) := by
  refine ⟨?_, ?_, ?_⟩
  · intro jx jy hx hy
    simp only [ECPoint.MarshalJSON, hx, hy]
  · intro j hj
    unfold ECPoint.MarshalJSON at hj
    cases hx : cp.MarshalJSON (some x) with
    | error e => simp [hx] at hj
    | ok jx =>
      cases hy : cp.MarshalJSON (some y) with
      | error e => simp [hx, hy] at hj
      | ok jy =>
        simp only [hx, hy, Except.ok.injEq] at hj
        exact ⟨jx, jy, rfl, rfl, hj.symm⟩
  · intro e he
    unfold ECPoint.MarshalJSON at he
    cases hx : cp.MarshalJSON (some x) with
    | error e0 =>
      simp only [hx, Except.error.injEq] at he
      exact ⟨e0, he.symm, Or.inl rfl⟩
    | ok jx =>
      cases hy : cp.MarshalJSON (some y) with
      | error e0 =>
        simp only [hx, hy, Except.error.injEq] at he
        exact ⟨e0, he.symm, Or.inr rfl⟩
      | ok jy => simp [hx, hy] at he

/-- Witness of C13: with the sample primitives, the point `(1, 2)` encodes
with 1 under `x` and 2 under `y`, and the point `(1, -2)` fails with the
wrapped error of the primitive that refuses negative integers. -/
theorem point_marshal_shape_witness :
    ECPoint.MarshalJSON plainParameter ⟨some 1, some 2⟩
      = .ok (.obj [("x", .obj [("value", .num 1)]), ("y", .obj [("value", .num 2)])]) ∧
    ECPoint.MarshalJSON naturalParameter ⟨some 1, some (-2)⟩
      = .error (.marshalerError (.custom "negative")) ∧
    ∃ e0, GoError.marshalerError (.custom "negative") = .marshalerError e0 ∧
      (naturalParameter.MarshalJSON (some 1) = .error e0 ∨
        naturalParameter.MarshalJSON (some (-2)) = .error e0) :=
  ⟨(point_marshal_shape plainParameter 1 2).1 _ _ rfl rfl, rfl,
    (point_marshal_shape naturalParameter 1 (-2)).2.2 _ rfl⟩

/-! ## Zero values and missing members -/

theorem decodeParamsMember_TLSCurveID_skip (cp : cryptoParameter) (key : String) (v : Json)
    (r : ECDHParams) (h : findField paramsFields key ≠ some .curveID) :
    (decodeParamsMember cp key v r).1.TLSCurveID = r.TLSCurveID := by
  unfold decodeParamsMember
  cases hf : findField paramsFields key with
  | none => rfl
  | some f =>
    cases f with
    | curveID => exact absurd hf h
    | serverPublic => rfl

theorem decodeParamsMembers_TLSCurveID_skip (onErr : OnMemberError) (cp : cryptoParameter)
    (ms : List (String × Json)) (r : ECDHParams)
    (h : ∀ m ∈ ms, findField paramsFields m.1 ≠ some .curveID) :
    (decodeParamsMembers onErr cp ms r).1.TLSCurveID = r.TLSCurveID := by
  induction ms generalizing r with
  | nil => rfl
  | cons m ms ih =>
    obtain ⟨key, v⟩ := m
    have hk : findField paramsFields key ≠ some .curveID := h (key, v) (List.mem_cons_self _ _)
    have hrest : ∀ m ∈ ms, findField paramsFields m.1 ≠ some .curveID :=
      fun m hm => h m (List.mem_cons_of_mem _ hm)
    have hone := decodeParamsMember_TLSCurveID_skip cp key v r hk
    simp only [decodeParamsMembers]
    rcases hm : decodeParamsMember cp key v r with ⟨r1, ⟨_ | e⟩ | _⟩
    · rw [hm] at hone
      simp only
      rw [ih r1 hrest]
      exact hone
    · rw [hm] at hone
      cases onErr with
      | stop => exact hone
      | goOn =>
        simp only
        rw [keepFirstError_fst, ih r1 hrest]
        exact hone
    · rw [hm] at hone
      exact hone

theorem jsonMarshal_of_zero (ecIDToName : Registry) (cp : cryptoParameter) (r : ECDHParams)
    (hz : r.TLSCurveID = 0) :
    ECDHParams.jsonMarshal ecIDToName cp r
      = (marshalServerPublicField cp r.ServerPublic).map Json.obj := by
  simp only [ECDHParams.jsonMarshal, marshalCurveIDField_eq, hz, if_true]
  cases marshalServerPublicField cp r.ServerPublic with
  | error e => rfl
  | ok ms => rfl

theorem marshalServerPublicField_keys (cp : cryptoParameter) (sp : Option ECPoint)
    (ms : List (String × Json)) (h : marshalServerPublicField cp sp = .ok ms) :
    ∀ m ∈ ms, m.1 = "server_public" := by
  unfold marshalServerPublicField at h
  cases sp with
  | none =>
    simp only [Except.ok.injEq] at h
    subst h
    intro m hm
    cases hm
  | some p =>
    cases hp : ECPoint.MarshalJSON cp p with
    | error e => simp [hp] at h
    | ok j =>
      simp only [hp, Except.ok.injEq] at h
      subst h
      intro m hm
      simp only [List.mem_singleton] at hm
      subst hm
      rfl

theorem curveID_unmarshal_no_id_member (ms : List (String × Json)) (c0 : TLSCurveID)
    (h : ∀ m ∈ ms, findField idFields m.1 = none) :
    TLSCurveID.UnmarshalJSON c0 (.obj ms) = (0, .returned none) := by
  simp only [TLSCurveID.UnmarshalJSON, unmarshalAuxID, decodeIDMembers_skip ms _ h]

/-- C14: the encoding of a record has the key `curve_id` if and only if
`TLSCurveID` is not zero. A record with curve identifier 0 encodes to the
object of its `server_public` member alone, the encoding of a record
without curve identity, and decoding that encoding leaves the curve
identifier of the target alone, under both decoders: 0 in a zero record. -/
theorem curve_id_zero_omitted (onErr : OnMemberError) (ecIDToName : Registry)
    (cp : cryptoParameter) (r : ECDHParams) :
    (∀ j, ECDHParams.jsonMarshal ecIDToName cp r = .ok j →
      ∃ ms, j = .obj ms ∧ ((∃ v, ("curve_id", v) ∈ ms) ↔ r.TLSCurveID ≠ 0)) ∧
    (r.TLSCurveID = 0 →
      ECDHParams.jsonMarshal ecIDToName cp r
        = (marshalServerPublicField cp r.ServerPublic).map Json.obj) ∧
    (r.TLSCurveID = 0 → ∀ j, ECDHParams.jsonMarshal ecIDToName cp r = .ok j →
      (ECDHParams.jsonUnmarshal onErr cp ECDHParams.zero j).1.TLSCurveID = 0 ∧
      ∀ r0, (ECDHParams.jsonUnmarshal onErr cp r0 j).1.TLSCurveID = r0.TLSCurveID) := by
  have hdec : r.TLSCurveID = 0 → ∀ j, ECDHParams.jsonMarshal ecIDToName cp r = .ok j →
      ∀ r0, (ECDHParams.jsonUnmarshal onErr cp r0 j).1.TLSCurveID = r0.TLSCurveID := by
    intro hz j hj r0
    rw [jsonMarshal_of_zero ecIDToName cp r hz] at hj
    cases hs : marshalServerPublicField cp r.ServerPublic with
    | error e => simp [hs, Except.map] at hj
    | ok ms =>
      simp only [hs, Except.map, Except.ok.injEq] at hj
      subst hj
      have hkeys := marshalServerPublicField_keys cp _ ms hs
      refine decodeParamsMembers_TLSCurveID_skip onErr cp ms r0 ?_
      intro m hm
      rw [hkeys m hm, findField_server_public]
      intro hne
      cases hne
  refine ⟨?_, jsonMarshal_of_zero ecIDToName cp r, ?_⟩
  · intro j hj
    simp only [ECDHParams.jsonMarshal, marshalCurveIDField_eq] at hj
    cases hs : marshalServerPublicField cp r.ServerPublic with
    | error e => simp [hs] at hj
    | ok ms =>
      simp only [hs, Except.ok.injEq] at hj
      subst hj
      refine ⟨_, rfl, ?_⟩
      have hkeys := marshalServerPublicField_keys cp _ ms hs
      by_cases hz : r.TLSCurveID = 0
      · simp only [hz, if_true, List.nil_append, ne_eq, not_true, iff_false]
        rintro ⟨v, hv⟩
        exact curve_id_ne_server_public (hkeys _ hv)
      · simp only [hz, if_false]
        exact iff_of_true ⟨_, List.mem_cons_self _ _⟩ hz
  · intro hz j hj
    exact ⟨hdec hz j hj ECDHParams.zero, hdec hz j hj⟩

/-- Witness of C14: the record with curve identifier 0 and the point
`(1, 2)` encodes to the object with the member `server_public` alone, and
that object decodes into a zero record with curve identifier 0. -/
theorem curve_id_zero_omitted_witness :
    ECDHParams.jsonMarshal sampleRegistry plainParameter ⟨0, none, some ⟨some 1, some 2⟩⟩
      = .ok (.obj [("server_public",
          .obj [("x", .obj [("value", .num 1)]), ("y", .obj [("value", .num 2)])])]) ∧
    (ECDHParams.jsonUnmarshal .goOn plainParameter ECDHParams.zero
      (.obj [("server_public",
          .obj [("x", .obj [("value", .num 1)]), ("y", .obj [("value", .num 2)])])])).1.TLSCurveID
      = 0 :=
  ⟨(curve_id_zero_omitted .goOn sampleRegistry plainParameter
      ⟨0, none, some ⟨some 1, some 2⟩⟩).2.1 rfl,
    ((curve_id_zero_omitted .goOn sampleRegistry plainParameter
      ⟨0, none, some ⟨some 1, some 2⟩⟩).2.2 rfl _ rfl).1⟩

/-- C15: decoding a curve identifier from an object none of whose keys is a
spelling of `id`, such as the empty object or an object with a name only,
returns no error and sets the receiver to 0, whatever it held before. -/
theorem curveID_unmarshal_without_id (ms : List (String × Json)) (c0 : TLSCurveID)
    (h : ∀ m ∈ ms, findField idFields m.1 = none) :
    TLSCurveID.UnmarshalJSON c0 (.obj ms) = (0, .returned none) :=
  curveID_unmarshal_no_id_member ms c0 h

/-- Witness of C15: the empty object and the object with the member
`name` alone, decoded into a receiver that holds 23. -/
theorem curveID_unmarshal_without_id_witness :
    TLSCurveID.UnmarshalJSON 23 (.obj []) = (0, .returned none) ∧
    TLSCurveID.UnmarshalJSON 23 (.obj [("name", .str "secp256r1")]) = (0, .returned none) :=
  ⟨curveID_unmarshal_without_id [] 23 (by decide),
    curveID_unmarshal_without_id [("name", .str "secp256r1")] 23 (by decide)⟩

/-- C16: the leaf decoders are atomic. Whenever `TLSCurveID.UnmarshalJSON`
returns an error the receiver is unchanged; whenever
`ECPoint.UnmarshalJSON` returns an error `X` and `Y` of the receiver are
unchanged, also when the `x` member decoded before the `y` member
failed. -/
theorem leaf_decoders_atomic :
    (∀ (c c1 : TLSCurveID) (b : Json) (e : GoError),
      TLSCurveID.UnmarshalJSON c b = (c1, .returned (some e)) → c1 = c) ∧
    (∀ (cp : cryptoParameter) (p p1 : ECPoint) (b : Json) (e : GoError),
      ECPoint.UnmarshalJSON cp p b = (p1, .returned (some e)) → p1.X = p.X ∧ p1.Y = p.Y) ∧
    (∀ (cp : cryptoParameter) (p : ECPoint) (jx jy : Json) (x : Option Int) (e : GoError),
      jx ≠ .null → cp.UnmarshalJSON jx = .ok x → jy ≠ .null → cp.UnmarshalJSON jy = .error e →
      ECPoint.UnmarshalJSON cp p (.obj [("x", jx), ("y", jy)]) = (p, .returned (some e))) := by
  refine ⟨?_, ?_, ?_⟩
  · intro c c1 b e h
    exact curveID_unmarshal_error_unchanged c c1 b e h
  · intro cp p p1 b e h
    have hp := point_unmarshal_error_unchanged cp p p1 b e h
    subst hp
    exact ⟨rfl, rfl⟩
  · intro cp p jx jy x e hnx hx hny hy
    have hsx := storeCryptoParameter_of_ne_null cp jx x hnx hx
    have hsy : storeCryptoParameter cp jy = .error e := by
      cases jy <;> first | exact absurd rfl hny | simp only [storeCryptoParameter, hy]
    simp only [ECPoint.UnmarshalJSON, unmarshalAuxPoint, decodePointMembers, findField_x,
      findField_y, hsx, hsy]

/-- Witness of C16: an identifier out of range leaves the receiver at 7,
and a point whose `x` decodes to 1 and whose `y` is malformed leaves the
receiver at `(5, 6)`. -/
theorem leaf_decoders_atomic_witness :
    TLSCurveID.UnmarshalJSON 7 (.obj [("id", .num 70000)])
      = (7, .returned (some (.unmarshalTypeError "number 70000"))) ∧
    ECPoint.UnmarshalJSON plainParameter ⟨some 5, some 6⟩
        (.obj [("x", .obj [("value", .num 1)]), ("y", .str "zz")])
      = (⟨some 5, some 6⟩, .returned (some (.custom "malformed parameter"))) ∧
    (7 : TLSCurveID) = 7 :=
  ⟨by decide,
    leaf_decoders_atomic.2.2 plainParameter ⟨some 5, some 6⟩ (.obj [("value", .num 1)])
      (.str "zz") (some 1) (.custom "malformed parameter") (fun h => nomatch h) rfl
      (fun h => nomatch h) rfl,
    leaf_decoders_atomic.1 7 7 (.obj [("id", .num 70000)])
      (.unmarshalTypeError "number 70000")
      (by decide)⟩

end Keys
